import Mathlib

/-!
Verification development for the SAMA base-agent implementation.

Shallow embedding of the agent core:
  - `src/core/schema.py`  : data model (ToolCall, ToolResult, AgentStep, AgentResponse)
  - `src/core/memory.py`  : Message / ConversationMemory / FileContext
  - `src/tools/base.py`   : BaseTool.run result wrapper
  - `src/tools/file_tool.py` : ReadFileTool / WriteFileTool with the path allow-list
  - `src/agents/base.py`  : the agent loop (run, _process_tool_calls, _execute_tool)

Modelling conventions: wall-clock instants are abstracted away (an elapsed
duration is an explicit `Nat` parameter where the code records one, and the
`timestamp` fields of the Python dataclasses are omitted); Python `Any` values
flowing out of tools are modelled as `Option String`; the opaque LLM backend,
`json.loads`, and the `<thinking>` regex are oracle functions carried in the
run configuration.  Exceptions are `Except String` with the raised text.
-/

namespace SamaAgent

/-- Raw tool-call directive as found in one model response
(`message.tool_calls[i]` in `BaseAgent.run`): an optional correlation id
(`none` models an absent / missing id attribute), the function name, and the
raw JSON-text argument payload. -/
structure ModelToolCall where
  id : Option String
  name : String
  arguments : String
deriving DecidableEq, Repr

/-- One model response (`response.choices[0].message`): optional free-text
content and a (possibly empty) list of tool-call directives.  An empty list
models both `None` and `[]`, which the code treats identically
(`if message.tool_calls:`). -/
structure ModelMessage where
  content : Option String
  tool_calls : List ModelToolCall
deriving DecidableEq, Repr

/-- Entry of the `tool_calls_data` list built in `BaseAgent.run` (lines
459-468) and stored in the assistant message metadata: id (empty string when
the directive has no id attribute), name, raw arguments. -/
structure ToolCallData where
  id : String
  name : String
  arguments : String
deriving DecidableEq, Repr

/-- The open metadata dict of `Message`, restricted to the keys the code
actually reads and writes: `tool_name`, `tool_call_id` (tool messages) and
`tool_calls` (assistant messages).  A `none` field models an absent key. -/
structure Metadata where
  tool_name : Option String := none
  tool_call_id : Option String := none
  tool_calls : Option (List ToolCallData) := none
deriving DecidableEq, Repr

/-- `Message` dataclass from `src/core/memory.py` (timestamp omitted). -/
structure Message where
  role : String
  content : String
  metadata : Metadata := {}
deriving DecidableEq, Repr

/-- Result of `Message.to_openai_format`: the provider-facing dict. -/
structure OpenAIMessage where
  role : String
  content : String
  name : Option String := none
  tool_call_id : Option String := none
  tool_calls : Option (List ToolCallData) := none
deriving DecidableEq, Repr

/-- `Message.to_openai_format` from `src/core/memory.py` lines 83-110:
tool messages export `name` and `tool_call_id` from metadata, assistant
messages export `tool_calls`; other roles export role and content only.
(The Python guard `if self.metadata and key in self.metadata` coincides with
the `Option` fields: an absent key is a `none` field.) -/
def Message.to_openai_format (msg : Message) : OpenAIMessage :=
  if msg.role == "tool" then
    { role := msg.role, content := msg.content,
      name := msg.metadata.tool_name,
      tool_call_id := msg.metadata.tool_call_id }
  else if msg.role == "assistant" then
    { role := msg.role, content := msg.content,
      tool_calls := msg.metadata.tool_calls }
  else
    { role := msg.role, content := msg.content }

/-- `FileContext` dataclass from `src/core/memory.py` (timestamp modelled as
a `Nat` tick; the open metadata dict as an association list). -/
structure FileContext where
  path : String
  content : Option String := none
  abstract : String := ""
  timestamp : Nat := 0
  metadata : List (String × String) := []
deriving DecidableEq, Repr

/-- `ConversationMemory` from `src/core/memory.py`: bounded message log,
separately stored system message, and the file-context table (a Python dict
keyed by path, modelled as an insertion-ordered association list). -/
structure ConversationMemory where
  max_entries : Nat
  messages : List Message := []
  system_message : Option Message := none
  files : List (String × FileContext) := []
deriving DecidableEq, Repr

/-- The eviction loop of `ConversationMemory._add_message` (lines 198-199):
`while len(self.messages) > self.max_entries: self.messages.pop(0)`. -/
def evictLoop (cap : Nat) : List Message → List Message
  | [] => []
  | m :: rest => if cap < (m :: rest).length then evictLoop cap rest else m :: rest

/-- `ConversationMemory._add_message`: append, then evict oldest while over
the cap.  The system message is stored outside this list and never evicted. -/
def ConversationMemory._add_message (m : ConversationMemory) (role content : String)
    (metadata : Metadata) : ConversationMemory :=
  { m with messages :=
      (evictLoop m.max_entries
        (m.messages ++ [{ role := role, content := content, metadata := metadata }])) }

/-- `ConversationMemory.add_user_message` (metadata defaults to the empty dict). -/
def ConversationMemory.add_user_message (m : ConversationMemory) (content : String) :
    ConversationMemory :=
  m._add_message "user" content {}

/-- `ConversationMemory.add_assistant_message`. -/
def ConversationMemory.add_assistant_message (m : ConversationMemory) (content : String)
    (metadata : Metadata) : ConversationMemory :=
  m._add_message "assistant" content metadata

/-- `ConversationMemory.add_tool_message`: forces `metadata["tool_name"]`. -/
def ConversationMemory.add_tool_message (m : ConversationMemory) (content : String)
    (tool_name : String) (metadata : Metadata) : ConversationMemory :=
  m._add_message "tool" content { metadata with tool_name := some tool_name }

/-- `ConversationMemory.set_system_message`: replace, not append. -/
def ConversationMemory.set_system_message (m : ConversationMemory) (content : String) :
    ConversationMemory :=
  { m with system_message := some { role := "system", content := content } }

/-- `ConversationMemory.get_messages`: system message (if set) first, then
the ordered log. -/
def ConversationMemory.get_messages (m : ConversationMemory) : List Message :=
  match m.system_message with
  | some s => [s] ++ m.messages
  | none => m.messages

/-- `ConversationMemory.get_openai_messages`. -/
def ConversationMemory.get_openai_messages (m : ConversationMemory) : List OpenAIMessage :=
  m.get_messages.map Message.to_openai_format

/-- `ConversationMemory.clear(keep_system)`: drops the message log; drops the
system message only when `keep_system` is false.  The `files` table is not
touched. -/
def ConversationMemory.clear (m : ConversationMemory) (keep_system : Bool) :
    ConversationMemory :=
  { m with messages := [],
           system_message := if keep_system then m.system_message else none }

/-- `ToolResultStatus` enum from `src/core/schema.py`. -/
inductive ToolResultStatus where
  | success
  | error
  | timeout
deriving DecidableEq, Repr

/-- Keyword-argument map passed to a tool (`json.loads` result), modelled as
an association list of string-rendered values. -/
abbrev ToolArgs : Type := List (String × String)

/-- `ToolResult` dataclass from `src/core/schema.py` (timestamp omitted;
`output : Any` modelled as `Option String`, `None` being `none`). -/
structure ToolResult where
  tool_name : String
  status : ToolResultStatus
  output : Option String
  error_message : Option String := none
  execution_time : Nat := 0
deriving DecidableEq, Repr

/-- `ToolCall` dataclass from `src/core/schema.py` (timestamp omitted). -/
structure ToolCall where
  tool_name : String
  arguments : ToolArgs
  call_id : Option String := none
deriving DecidableEq, Repr

/-- `AgentStep` dataclass from `src/core/schema.py` (timestamp omitted).
Note the reasoning field is named `thought`. -/
structure AgentStep where
  step_number : Nat
  thought : String
  tool_calls : List ToolCall := []
  tool_results : List ToolResult := []
  response : Option String := none
deriving DecidableEq, Repr

/-- `AgentState` enum from `src/core/schema.py`. -/
inductive AgentState where
  | idle
  | thinking
  | executing
  | completed
  | error
  | stopped
deriving DecidableEq, Repr

/-- `AgentResponse` dataclass from `src/core/schema.py`. -/
structure AgentResponse where
  success : Bool
  final_answer : String
  steps : List AgentStep := []
  total_iterations : Nat := 0
  total_tokens_used : Nat := 0
  execution_time : Nat := 0
  error_message : Option String := none
deriving DecidableEq, Repr

/-- Outcome of one invocation of a tool body (`BaseTool._run`): normal
return, a raised `TimeoutError` (with its text), or any other raised
exception (with its text). -/
inductive ToolOutcome where
  | ok (value : String)
  | timeout (e : String)
  | exn (e : String)
deriving DecidableEq, Repr

/-- The try/except wrapper of `BaseTool.run` from `src/tools/base.py` lines
87-142: tags the outcome, builds the error text, and records the elapsed
wall-clock duration `t` (the `time.time()` difference, passed explicitly). -/
def wrapOutcome (name : String) (outcome : ToolOutcome) (t : Nat) : ToolResult :=
  match outcome with
  | .ok v =>
      { tool_name := name, status := .success, output := some v, execution_time := t }
  | .timeout e =>
      { tool_name := name, status := .timeout, output := none,
        error_message := some ("工具执行超时 / Tool execution timeout: " ++ e),
        execution_time := t }
  | .exn e =>
      { tool_name := name, status := .error, output := none,
        error_message := some ("工具执行错误 / Tool execution error: " ++ e),
        execution_time := t }

/-- `BaseTool.run`: run the body on the keyword arguments and wrap. -/
def BaseTool.run (name : String) (body : ToolArgs → ToolOutcome) (args : ToolArgs)
    (t : Nat) : ToolResult :=
  wrapOutcome name (body args) t

/-- A registered tool registry: `self.tools`, a dict from tool name to the
behaviour of the instance's `_run` body. -/
abbrev ToolRegistry : Type := List (String × (ToolArgs → ToolOutcome))

/-- `BaseAgent._execute_tool` from `src/agents/base.py` lines 304-331:
an unregistered name returns an error `ToolResult` (no exception is raised);
a registered tool is executed through `BaseTool.run`.  The loop does not
consume the measured duration, so it is fixed to `0` here. -/
def executeTool (tools : ToolRegistry) (tool_name : String) (arguments : ToolArgs) :
    ToolResult :=
  match tools.lookup tool_name with
  | none =>
      { tool_name := tool_name, status := .error, output := none,
        error_message := some ("未知工具 / Unknown tool: " ++ tool_name) }
  | some body => BaseTool.run tool_name body arguments 0

/-- `truncate_text` from `src/utils/helpers.py`. -/
def truncate_text (text : String) (maxLength : Nat) (suffix : String) : String :=
  if text.length ≤ maxLength then text
  else text.take (maxLength - suffix.length) ++ suffix

/-- `format_tool_result` from `src/utils/helpers.py` on the modelled
`output : Option String` (the `None` and `str` branches of the Python code). -/
def format_tool_result (output : Option String) : String :=
  match output with
  | none => "无结果 / No result"
  | some s => truncate_text s 2000 "..."

/-- The tool-message text built in `BaseAgent.run` lines 478-480:
the formatted output, overridden by the error text when `error_message` is
truthy (a non-empty string). -/
def toolResultText (r : ToolResult) : String :=
  match r.error_message with
  | some e => if e == "" then format_tool_result r.output else "错误 / Error: " ++ e
  | none => format_tool_result r.output

/-- The fallback correlation id `f"call_{tool_name}_{i}"` synthesized in
`BaseAgent._process_tool_calls` (line 359) and in `BaseAgent.run` (line 501).
It depends only on the tool name and the ordinal position within the
response — not on the iteration number. -/
def fallbackCallId (name : String) (i : Nat) : String :=
  "call_" ++ name ++ "_" ++ toString i

/-- `getattr(tool_call, "id", None) or f"call_{tool_name}_{i}"`: the
directive's id when present and non-empty, otherwise the fallback. -/
def resolveCallId (tc : ModelToolCall) (i : Nat) : String :=
  match tc.id with
  | some s => if s == "" then fallbackCallId tc.name i else s
  | none => fallbackCallId tc.name i

/-- The in-place update `self.steps[-1].tool_calls.append(...)` /
`self.steps[-1].tool_results.append(...)` guarded by `if self.steps:`
(`_process_tool_calls` lines 374-376). -/
def appendToLastStep : List AgentStep → ToolCall → ToolResult → List AgentStep
  | [], _, _ => []
  | [s], tc, tr =>
      [{ s with tool_calls := s.tool_calls ++ [tc],
                tool_results := s.tool_results ++ [tr] }]
  | s :: rest, tc, tr => s :: appendToLastStep rest tc tr

/-- `BaseAgent._process_tool_calls` from `src/agents/base.py` lines 333-378,
with the enumeration index made explicit.  For each directive in order:
parse the raw arguments (`json.loads`, degrading to the empty map on a parse
failure), resolve the correlation id (`self._tool_call_ids[i]`), execute the
tool, and append the call record and result to the current (last) step.
Returns the `(call_id, result)` pairs in order — the `_tool_call_ids`
mapping together with the results list — and the updated step list. -/
def processToolCallsAux (tools : ToolRegistry) (parse : String → Option ToolArgs) :
    Nat → List ModelToolCall → List AgentStep →
    List (String × ToolResult) × List AgentStep
  | _, [], steps => ([], steps)
  | i, tc :: rest, steps =>
    let args := (parse tc.arguments).getD []
    let call_id := resolveCallId tc i
    let result := executeTool tools tc.name args
    let record : ToolCall := { tool_name := tc.name, arguments := args,
                               call_id := some call_id }
    let steps1 := appendToLastStep steps record result
    let r := processToolCallsAux tools parse (i + 1) rest steps1
    ((call_id, result) :: r.1, r.2)

/-- The `tool_calls_data` list built in `BaseAgent.run` lines 459-468:
`str(tool_call.id) if hasattr(tool_call, "id") else ""` — an absent id is
recorded as the empty string. -/
def toolCallsData (tcs : List ModelToolCall) : List ToolCallData :=
  tcs.map fun tc => { id := tc.id.getD "", name := tc.name, arguments := tc.arguments }

/-- The loop in `BaseAgent.run` lines 476-512: one tool message per resolved
directive, carrying the formatted result text, the tool name, and — since
the resolved id is never falsy — the correlation id. -/
def appendToolMessages (mem : ConversationMemory) :
    List (ModelToolCall × String × ToolResult) → ConversationMemory
  | [] => mem
  | (tc, cid, res) :: rest =>
      appendToolMessages
        (mem.add_tool_message (toolResultText res) tc.name
          { tool_name := some tc.name,
            tool_call_id := if cid == "" then none else some cid })
        rest

/-- Configuration plus external collaborators of one agent: the iteration
cap, the tool registry, and the oracle functions for the opaque pieces —
`json.loads` (`parseArgs`, `none` modelling a `JSONDecodeError`), the
`<thinking>` tag extraction regex of `BaseAgent._extract_thinking`, and the
model backend (`llm`, which may raise: `Except.error` carries the text). -/
structure RunCfg where
  max_iterations : Nat
  tools : ToolRegistry
  parseArgs : String → Option ToolArgs
  extractThinking : String → Option String
  llm : Nat → List OpenAIMessage → Except String ModelMessage

/-- The exception text of `AgentStep(step_number=..., thinking=...)` at
`src/agents/base.py` line 438: the `AgentStep` dataclass declares the field
`thought` (and no `thinking`), so the constructor call raises `TypeError`. -/
def agentStepTypeError : String :=
  "TypeError: AgentStep.init got an unexpected keyword argument thinking"

/-- The step-record construction of `BaseAgent.run` lines 438-441.  In the
source this is `AgentStep(step_number=self.current_step, thinking=thinking_text)`,
which always raises `TypeError` because the dataclass field is named
`thought` — mirrored here by always raising. -/
def mkStepThinking (stepNumber : Nat) (thinking : String) : Except String AgentStep :=
  Except.error agentStepTypeError

/-- The tool-call branch of `BaseAgent.run` lines 449-512: process the
directives (`_process_tool_calls`), append one assistant message echoing the
directives (metadata `tool_calls` when non-empty), then one tool message per
result.  Returns the updated memory and step list. -/
def handleToolCallsBranch (cfg : RunCfg) (mem : ConversationMemory)
    (steps : List AgentStep) (msg : ModelMessage) :
    ConversationMemory × List AgentStep :=
  let pr := processToolCallsAux cfg.tools cfg.parseArgs 0 msg.tool_calls steps
  let data := toolCallsData msg.tool_calls
  let mem1 := mem.add_assistant_message (msg.content.getD "")
      (if data.isEmpty then {} else { tool_calls := some data })
  (appendToolMessages mem1 (msg.tool_calls.zip pr.1), pr.2)

/-- Result of the part of the loop body after the step record is built:
either the loop continues (back to the `while` test) or `run` returns. -/
inductive BodyOut where
  | next (mem : ConversationMemory) (steps : List AgentStep)
  | finished (resp : AgentResponse) (mem : ConversationMemory) (steps : List AgentStep)
deriving Repr

/-- `BaseAgent.run` lines 442-533 — the loop body after the step record is
built: append the step; with tool-call directives, execute the tool-call
branch and continue; with none, record the final answer on the step, append
it as an assistant message, and return a successful `AgentResponse`. -/
def loopBodyAfterStep (cfg : RunCfg) (mem : ConversationMemory)
    (steps : List AgentStep) (stepNum : Nat) (msg : ModelMessage)
    (step : AgentStep) : BodyOut :=
  if msg.tool_calls.isEmpty then
    let final_answer := msg.content.getD ""
    let mem1 := mem.add_assistant_message final_answer {}
    let steps1 := steps ++ [{ step with response := some final_answer }]
    BodyOut.finished
      { success := true, final_answer := final_answer, steps := steps1,
        total_iterations := stepNum, total_tokens_used := 0,
        execution_time := 0, error_message := none }
      mem1 steps1
  else
    let r := handleToolCallsBranch cfg mem (steps ++ [step]) msg
    BodyOut.next r.1 r.2

/-- Mutable per-run state of the agent: `self.current_step`, `self.steps`,
`self.memory`, `self.state`. -/
structure LoopState where
  current_step : Nat
  steps : List AgentStep
  memory : ConversationMemory
  state : AgentState
deriving Repr

/-- The `while self.current_step < self.config.agent.max_iterations` loop of
`BaseAgent.run` (lines 409-533), in fuel form: the fuel is the number of
remaining iterations `max_iterations - current_step`, so `0` fuel is exactly
a false `while` test.  Each iteration increments `current_step`, snapshots
the history, calls the model, builds the step record (which raises, see
`mkStepThinking`), and runs the rest of the body.  `Except.error` carries a
raised exception out to the handler in `BaseAgent.run`, together with the
state at that point. -/
def runLoopFuel (cfg : RunCfg) :
    Nat → LoopState → (Except String (Option AgentResponse)) × LoopState
  | 0, st => (Except.ok none, st)
  | fuel + 1, st =>
    let cs := st.current_step + 1
    let msgs := st.memory.get_openai_messages
    match cfg.llm cs msgs with
    | Except.error e =>
        (Except.error e, { st with current_step := cs, state := .thinking })
    | Except.ok msg =>
      let content := msg.content.getD ""
      let thinking := match cfg.extractThinking content with
        | some s => if s == "" then content.take 500 else s
        | none => content.take 500
      match mkStepThinking cs thinking with
      | Except.error e =>
          (Except.error e, { st with current_step := cs, state := .thinking })
      | Except.ok step =>
        match loopBodyAfterStep cfg st.memory st.steps cs msg step with
        | BodyOut.finished resp mem2 steps2 =>
            (Except.ok (some resp),
             { current_step := cs, steps := steps2, memory := mem2,
               state := .completed })
        | BodyOut.next mem2 steps2 =>
            runLoopFuel cfg fuel
              { current_step := cs, steps := steps2, memory := mem2,
                state := .executing }

/-- The state set up at the top of `BaseAgent.run` (lines 399-405): reset
counters and step list, set the state to Thinking, and append the user
message to memory. -/
def initLoopState (mem : ConversationMemory) (user_input : String) : LoopState :=
  { current_step := 0, steps := [],
    memory := mem.add_user_message user_input, state := .thinking }

/-- The two late returns of `BaseAgent.run`: exhaustion of the iteration cap
(lines 535-549) and the `except` handler (lines 551-565). -/
def finishRun (out : (Except String (Option AgentResponse)) × LoopState) :
    AgentResponse × LoopState :=
  match out with
  | (Except.ok (some resp), st) => (resp, st)
  | (Except.ok none, st) =>
      ({ success := false,
         final_answer := "达到最大迭代次数，任务未完成。/ Reached max iterations, task not completed.",
         steps := st.steps, total_iterations := st.current_step,
         total_tokens_used := 0, execution_time := 0,
         error_message := some "Max iterations reached" },
       { st with state := .stopped })
  | (Except.error e, st) =>
      ({ success := false,
         final_answer := "执行过程中发生错误 / Error during execution: " ++ e,
         steps := st.steps, total_iterations := st.current_step,
         total_tokens_used := 0, execution_time := 0,
         error_message := some e },
       { st with state := .error })

/-- `BaseAgent.run` from `src/agents/base.py` lines 380-565.  Always returns
an `AgentResponse` (paired with the final mutable state): the loop body runs
under the single try/except, and both the exhaustion exit and any raised
exception are converted by `finishRun`. -/
def BaseAgent.run (cfg : RunCfg) (mem : ConversationMemory) (user_input : String) :
    AgentResponse × LoopState :=
  finishRun (runLoopFuel cfg cfg.max_iterations (initLoopState mem user_input))

/-- `BaseAgent.reset` from `src/agents/base.py` lines 627-634: back to Idle,
clear steps and counter, clear the message log keeping the system message. -/
def BaseAgent.reset (st : LoopState) : LoopState :=
  { state := .idle, current_step := 0, steps := [],
    memory := st.memory.clear true }

/-- A POSIX path as handed to the file tools: absolute or relative, with its
`/`-separated segments (which may be `..`, `.` or empty, exactly the raw
segments of the Python string). -/
structure PyPath where
  absolute : Bool
  segs : List String
deriving DecidableEq, Repr

/-- Normalization of the segments of an absolute path, as performed by
`os.path.normpath` / `os.path.abspath` on POSIX: drop empty and `.`
segments, and let `..` pop the previous segment (at the root, `..` is
dropped — `/..` resolves to `/`). -/
def normSegs (segs : List String) : List String :=
  segs.foldl
    (fun acc s =>
      if s == "" || s == "." then acc
      else if s == ".." then acc.dropLast
      else acc ++ [s])
    []

/-- `os.path.normpath(os.path.abspath(p))` (file_tool.py lines 73, 136):
a relative path is joined onto the current working directory (given as the
segments of an absolute path) and the join is normalized. -/
def absNorm (cwd : List String) (p : PyPath) : List String :=
  if p.absolute then normSegs p.segs else normSegs (cwd ++ p.segs)

/-- The containment test of `_is_path_allowed` for a single allowed root:
`abs_path.startswith(allowed_abs)` plus the guard that the match ends at a
path separator (lines 78-82), expressed on the normalized segment lists.
For a normalized absolute allowed root `/a1/../ak` (k ≥ 1) the string test
succeeds exactly when the root's segments are a prefix of the target's; for
the root directory `/` itself (no segments) the Python guard
`abs_path[1] in (os.sep, '')` only accepts the target `/`. -/
def dirAllows (da pa : List String) : Bool :=
  if da.isEmpty then pa.isEmpty else da.isPrefixOf pa

/-- `ReadFileTool._is_path_allowed` / `WriteFileTool._is_path_allowed` from
`src/tools/file_tool.py`: some configured allowed directory contains the
normalized absolute path. -/
def _is_path_allowed (cwd : List String) (allowed : List PyPath) (p : PyPath) : Bool :=
  allowed.any fun d => dirAllows (absNorm cwd d) (absNorm cwd p)

/-- The file system visible to the tools: contents keyed by normalized
absolute path. -/
abbrev FileSystem : Type := List (List String × String)

/-- Store a file, replacing an existing entry for the same path. -/
def fsInsert : FileSystem → List String → String → FileSystem
  | [], key, content => [(key, content)]
  | (k, c) :: rest, key, content =>
      if k == key then (k, content) :: rest
      else (k, c) :: fsInsert rest key content

/-- Rendering of a `PyPath` for error messages. -/
def renderPath (p : PyPath) : String :=
  (if p.absolute then "/" else "") ++ String.intercalate "/" p.segs

/-- `ReadFileTool._run` from `src/tools/file_tool.py` lines 85-106: a path
outside the allow-list raises `PermissionError`, a missing file raises
`FileNotFoundError`, otherwise the content is returned. -/
def ReadFileTool._run (cwd : List String) (allowed : List PyPath) (fs : FileSystem)
    (p : PyPath) : ToolOutcome :=
  if !(_is_path_allowed cwd allowed p) then
    ToolOutcome.exn ("不允许访问该路径 / Access to this path is not allowed: " ++ renderPath p)
  else
    match fs.lookup (absNorm cwd p) with
    | some content => ToolOutcome.ok content
    | none => ToolOutcome.exn ("文件不存在 / File not found: " ++ renderPath p)

/-- `ReadFileTool.run`: the `BaseTool.run` wrapper around `_run`
(tool name `read_file`), with the elapsed duration `t`. -/
def ReadFileTool.run (cwd : List String) (allowed : List PyPath) (fs : FileSystem)
    (p : PyPath) (t : Nat) : ToolResult :=
  wrapOutcome "read_file" (ReadFileTool._run cwd allowed fs p) t

/-- `WriteFileTool._run` from `src/tools/file_tool.py` lines 144-168: a path
outside the allow-list raises `PermissionError` before touching the file
system; otherwise the content is written (or appended) and a success string
returned.  The resulting file system is returned alongside. -/
def WriteFileTool._run (cwd : List String) (allowed : List PyPath) (fs : FileSystem)
    (p : PyPath) (content : String) (append : Bool) : ToolOutcome × FileSystem :=
  if !(_is_path_allowed cwd allowed p) then
    (ToolOutcome.exn ("不允许访问该路径 / Access to this path is not allowed: " ++ renderPath p), fs)
  else
    let key := absNorm cwd p
    let newContent := if append then ((fs.lookup key).getD "") ++ content else content
    (ToolOutcome.ok ("文件写入成功 / File written successfully: " ++ renderPath p),
     fsInsert fs key newContent)

/-- `WriteFileTool.run`: the `BaseTool.run` wrapper around `_run`
(tool name `write_file`), returning the result and the file system. -/
def WriteFileTool.run (cwd : List String) (allowed : List PyPath) (fs : FileSystem)
    (p : PyPath) (content : String) (append : Bool) (t : Nat) :
    ToolResult × FileSystem :=
  let r := WriteFileTool._run cwd allowed fs p content append
  (wrapOutcome "write_file" r.1 t, r.2)

/-- A Conversation Memory operation as the agent loop performs them: the
user-input append at the top of `run`, a final assistant answer (the
no-tool-calls branch), or a full tool turn (the assistant echo followed by
its tool messages, lines 449-512). -/
inductive MemOp where
  | user (content : String)
  | assistantFinal (content : String)
  | toolTurn (msg : ModelMessage)
deriving Repr

/-- Apply one loop-generated operation to the memory (the step list does not
influence the message log, so it is started empty here). -/
def applyOp (cfg : RunCfg) (mem : ConversationMemory) : MemOp → ConversationMemory
  | MemOp.user c => mem.add_user_message c
  | MemOp.assistantFinal c => mem.add_assistant_message c {}
  | MemOp.toolTurn msg => (handleToolCallsBranch cfg mem [] msg).1

/-- Apply a sequence of loop-generated operations in order. -/
def applyOps (cfg : RunCfg) (mem : ConversationMemory) : List MemOp → ConversationMemory
  | [] => mem
  | op :: rest => applyOps cfg (applyOp cfg mem op) rest

/-- Whether an exported message is an assistant message whose recorded
tool-call list contains the correlation id `cid`. -/
def assistantRequested (m : Message) (cid : String) : Bool :=
  m.role == "assistant" &&
    (match m.metadata.tool_calls with
     | some l => l.any fun d => d.id == cid
     | none => false)

/-- Whether a message is justified by the messages before it: a tool message
carrying a `tool_call_id` needs a preceding assistant message that requested
that id; every other message is unconstrained. -/
def justified (pre : List Message) (m : Message) : Bool :=
  if m.role == "tool" then
    match m.metadata.tool_call_id with
    | some cid => pre.any fun a => assistantRequested a cid
    | none => true
  else true

/-- Every message of the list is justified by the given prefix plus the
messages before it in the list. -/
def checkFrom (pre : List Message) : List Message → Bool
  | [] => true
  | m :: rest => justified pre m && checkFrom (pre ++ [m]) rest

-- Proof-side mirrors of the messages appended by a tool turn.

/-- The `(call_id, result)` pairs of `_process_tool_calls` in isolation:
the first component of `processToolCallsAux`, which does not depend on the
step list. -/
def recordsOf (tools : ToolRegistry) (parse : String → Option ToolArgs) :
    Nat → List ModelToolCall → List (String × ToolResult)
  | _, [] => []
  | i, tc :: rest =>
    (resolveCallId tc i,
     executeTool tools tc.name ((parse tc.arguments).getD [])) ::
      recordsOf tools parse (i + 1) rest

/-- The assistant message echoing the directives of a tool turn. -/
def assistantEcho (msg : ModelMessage) : Message :=
  { role := "assistant", content := msg.content.getD "",
    metadata :=
      if (toolCallsData msg.tool_calls).isEmpty then {}
      else { tool_calls := some (toolCallsData msg.tool_calls) } }

/-- The tool message appended for one resolved directive. -/
def toolMsgOf (entry : ModelToolCall × String × ToolResult) : Message :=
  { role := "tool", content := toolResultText entry.2.2,
    metadata :=
      { tool_name := some entry.1.name,
        tool_call_id := if entry.2.1 == "" then none else some entry.2.1 } }

/-- The tool messages appended by a tool turn, in directive order. -/
def toolBatch (cfg : RunCfg) (msg : ModelMessage) : List Message :=
  (msg.tool_calls.zip (recordsOf cfg.tools cfg.parseArgs 0 msg.tool_calls)).map toolMsgOf

/-- All messages appended to the log by one loop-generated operation. -/
def batchOf (cfg : RunCfg) : MemOp → List Message
  | MemOp.user c => [{ role := "user", content := c }]
  | MemOp.assistantFinal c => [{ role := "assistant", content := c }]
  | MemOp.toolTurn msg => assistantEcho msg :: toolBatch cfg msg

/-- Number of messages appended by one operation. -/
def opSize : MemOp → Nat
  | MemOp.user _ => 1
  | MemOp.assistantFinal _ => 1
  | MemOp.toolTurn msg => 1 + msg.tool_calls.length

/-- Total number of messages appended by a sequence of operations. -/
def opsSize (ops : List MemOp) : Nat := (ops.map opSize).sum

/-- Whether every directive of an operation carries a non-empty id. -/
def opOk : MemOp → Bool
  | MemOp.toolTurn msg =>
      msg.tool_calls.all fun tc =>
        match tc.id with
        | some s => !(s == "")
        | none => false
  | _ => true

-- Concrete instances used by the closed theorems and witnesses below.

/-- A fresh memory with the default cap of 100 (`MemoryConfig.max_entries`). -/
def memDefault : ConversationMemory := { max_entries := 100 }

/-- A memory with the smallest admissible cap (`ConversationMemory(max_entries=1)`). -/
def memCapOne : ConversationMemory := { max_entries := 1 }

/-- A backend that answers `4` directly, with no tool-call directives. -/
def cfgDirectAnswer : RunCfg :=
  { max_iterations := 10, tools := [], parseArgs := fun _ => none,
    extractThinking := fun _ => none,
    llm := fun _ _ => Except.ok { content := some "4", tool_calls := [] } }

/-- A backend whose request raises with text `boom`. -/
def cfgRaisingBackend : RunCfg :=
  { max_iterations := 3, tools := [], parseArgs := fun _ => none,
    extractThinking := fun _ => none,
    llm := fun _ _ => Except.error "boom" }

/-- A model response with a single directive (id `c1`) naming the
unregistered tool `echo`. -/
def msgOneCall : ModelMessage :=
  { content := some "",
    tool_calls := [{ id := some "c1", name := "echo", arguments := "" }] }

/-- A model response with two directives carrying ids `a` and `b`. -/
def msgTwoCalls : ModelMessage :=
  { content := some "calling",
    tool_calls := [{ id := some "a", name := "echo", arguments := "" },
                   { id := some "b", name := "shell", arguments := "" }] }

/-- A directive whose id the backend omitted. -/
def tcNoId : ModelToolCall := { id := none, name := "calculator", arguments := "" }

/-- The step list as it looks during iteration 1 of a run. -/
def stepsIter1 : List AgentStep := [{ step_number := 1, thought := "t1" }]

/-- The step list as it looks during iteration 2 of the same run. -/
def stepsIter2 : List AgentStep :=
  [{ step_number := 1, thought := "t1" }, { step_number := 2, thought := "t2" }]

/-- A tool body that always raises a plain exception. -/
def bodyRaising : ToolArgs → ToolOutcome := fun _ => ToolOutcome.exn "nope"

/-- A working directory, an allow-list of one workspace root, and a
traversal path that resolves outside it. -/
def cwdW : List String := ["home", "user"]

/-- The configured allowed root `/home/user/ws`. -/
def allowedW : List PyPath := [{ absolute := true, segs := ["home", "user", "ws"] }]

/-- The path `../../etc/passwd`, which normalizes to `/etc/passwd`. -/
def pTraversal : PyPath := { absolute := false, segs := ["..", "..", "etc", "passwd"] }

-- ===========================================================================
-- Helper lemmas
-- ===========================================================================

theorem evictLoop_of_le (cap : Nat) (msgs : List Message) (h : msgs.length ≤ cap) :
    evictLoop cap msgs = msgs := by
  cases msgs with
  | nil => rfl
  | cons m rest =>
    have hnot : ¬ cap < (m :: rest).length := Nat.not_lt.mpr h
    unfold evictLoop
    rw [if_neg hnot]

theorem evictLoop_eq_drop (cap : Nat) (msgs : List Message) :
    evictLoop cap msgs = msgs.drop (msgs.length - cap) := by
  induction msgs with
  | nil => simp [evictLoop]
  | cons m rest ih =>
    unfold evictLoop
    split
    next h =>
      rw [ih]
      have hlen : (m :: rest).length - cap = (rest.length - cap) + 1 := by
        simp only [List.length_cons] at h ⊢
        omega
      rw [hlen, List.drop_succ_cons]
    next h =>
      have hz : (m :: rest).length - cap = 0 := by
        simp only [List.length_cons] at h ⊢
        omega
      rw [hz, List.drop_zero]

@[simp] theorem _add_message_max_entries (m : ConversationMemory) (r c : String)
    (md : Metadata) : (m._add_message r c md).max_entries = m.max_entries := rfl

@[simp] theorem _add_message_system (m : ConversationMemory) (r c : String)
    (md : Metadata) : (m._add_message r c md).system_message = m.system_message := rfl

@[simp] theorem _add_message_files (m : ConversationMemory) (r c : String)
    (md : Metadata) : (m._add_message r c md).files = m.files := rfl

/-- When the log stays within the cap, `_add_message` is a pure append. -/
theorem _add_message_messages_of_le (m : ConversationMemory) (r c : String)
    (md : Metadata) (h : m.messages.length + 1 ≤ m.max_entries) :
    (m._add_message r c md).messages =
      m.messages ++ [{ role := r, content := c, metadata := md }] := by
  have hlen :
      (m.messages ++ [({ role := r, content := c, metadata := md } : Message)]).length
        ≤ m.max_entries := by
    simp only [List.length_append, List.length_singleton]
    omega
  unfold ConversationMemory._add_message
  exact evictLoop_of_le _ _ hlen

theorem processAux_fst (tools : ToolRegistry) (parse : String → Option ToolArgs)
    (tcs : List ModelToolCall) : ∀ (i : Nat) (steps : List AgentStep),
    (processToolCallsAux tools parse i tcs steps).1 = recordsOf tools parse i tcs := by
  induction tcs with
  | nil => intro i steps; rfl
  | cons tc rest ih =>
    intro i steps
    simp only [processToolCallsAux, recordsOf]
    rw [ih]

theorem recordsOf_length (tools : ToolRegistry) (parse : String → Option ToolArgs)
    (tcs : List ModelToolCall) : ∀ i : Nat,
    (recordsOf tools parse i tcs).length = tcs.length := by
  induction tcs with
  | nil => intro i; rfl
  | cons tc rest ih =>
    intro i
    simp only [recordsOf, List.length_cons, ih]

theorem recordsOf_get (tools : ToolRegistry) (parse : String → Option ToolArgs)
    (tcs : List ModelToolCall) : ∀ (k i : Nat) (hi : i < tcs.length)
    (hr : i < (recordsOf tools parse k tcs).length),
    (recordsOf tools parse k tcs).get ⟨i, hr⟩ =
      (resolveCallId (tcs.get ⟨i, hi⟩) (k + i),
       executeTool tools (tcs.get ⟨i, hi⟩).name
         ((parse (tcs.get ⟨i, hi⟩).arguments).getD [])) := by
  induction tcs with
  | nil => intro k i hi hr; exact absurd hi (by simp)
  | cons tc rest ih =>
    intro k i hi hr
    cases i with
    | zero => rfl
    | succ j =>
      have hj : j < rest.length := by simpa using hi
      have hr2 : j < (recordsOf tools parse (k + 1) rest).length := by
        rw [recordsOf_length]
        exact hj
      have := ih (k + 1) j hj hr2
      simp only [recordsOf, List.get_cons_succ]
      rw [this]
      have harith : k + 1 + j = k + (j + 1) := by omega
      rw [harith]

theorem appendToolMessages_max (pairs : List (ModelToolCall × String × ToolResult)) :
    ∀ mem : ConversationMemory,
    (appendToolMessages mem pairs).max_entries = mem.max_entries := by
  induction pairs with
  | nil => intro mem; rfl
  | cons p rest ih =>
    intro mem
    obtain ⟨tc, cid, res⟩ := p
    simp only [appendToolMessages]
    rw [ih]
    rfl

theorem appendToolMessages_system (pairs : List (ModelToolCall × String × ToolResult)) :
    ∀ mem : ConversationMemory,
    (appendToolMessages mem pairs).system_message = mem.system_message := by
  induction pairs with
  | nil => intro mem; rfl
  | cons p rest ih =>
    intro mem
    obtain ⟨tc, cid, res⟩ := p
    simp only [appendToolMessages]
    rw [ih]
    rfl

theorem appendToolMessages_files (pairs : List (ModelToolCall × String × ToolResult)) :
    ∀ mem : ConversationMemory,
    (appendToolMessages mem pairs).files = mem.files := by
  induction pairs with
  | nil => intro mem; rfl
  | cons p rest ih =>
    intro mem
    obtain ⟨tc, cid, res⟩ := p
    simp only [appendToolMessages]
    rw [ih]
    rfl

theorem appendToolMessages_messages_of_le
    (pairs : List (ModelToolCall × String × ToolResult)) :
    ∀ mem : ConversationMemory,
    mem.messages.length + pairs.length ≤ mem.max_entries →
    (appendToolMessages mem pairs).messages = mem.messages ++ pairs.map toolMsgOf := by
  induction pairs with
  | nil => intro mem h; simp [appendToolMessages]
  | cons p rest ih =>
    intro mem h
    obtain ⟨tc, cid, res⟩ := p
    have h1 : mem.messages.length + 1 ≤ mem.max_entries := by
      simp only [List.length_cons] at h
      omega
    have hstep :
        (mem.add_tool_message (toolResultText res) tc.name
          { tool_name := some tc.name,
            tool_call_id := if cid == "" then none else some cid }).messages =
          mem.messages ++ [toolMsgOf (tc, cid, res)] := by
      unfold ConversationMemory.add_tool_message
      exact _add_message_messages_of_le _ _ _ _ h1
    simp only [appendToolMessages]
    rw [ih _ ?_, hstep, List.append_assoc]
    · rfl
    · rw [hstep]
      simp only [List.length_append, List.length_singleton]
      unfold ConversationMemory.add_tool_message
      rw [_add_message_max_entries]
      simp only [List.length_cons] at h
      omega

theorem handleBranch_messages (cfg : RunCfg) (mem : ConversationMemory)
    (steps : List AgentStep) (msg : ModelMessage)
    (h : mem.messages.length + 1 + msg.tool_calls.length ≤ mem.max_entries) :
    (handleToolCallsBranch cfg mem steps msg).1.messages =
      mem.messages ++ assistantEcho msg :: toolBatch cfg msg := by
  have h1 : mem.messages.length + 1 ≤ mem.max_entries := by omega
  have hassist :
      (mem.add_assistant_message (msg.content.getD "")
        (if (toolCallsData msg.tool_calls).isEmpty then {}
         else { tool_calls := some (toolCallsData msg.tool_calls) })).messages =
        mem.messages ++ [assistantEcho msg] := by
    unfold ConversationMemory.add_assistant_message
    exact _add_message_messages_of_le _ _ _ _ h1
  unfold handleToolCallsBranch
  simp only [processAux_fst]
  rw [appendToolMessages_messages_of_le _ _ ?_, hassist, List.append_assoc]
  · rfl
  · rw [hassist]
    unfold ConversationMemory.add_assistant_message
    rw [_add_message_max_entries]
    simp only [List.length_append, List.length_singleton, List.length_zip,
      recordsOf_length, Nat.min_self]
    omega

theorem handleBranch_system (cfg : RunCfg) (mem : ConversationMemory)
    (steps : List AgentStep) (msg : ModelMessage) :
    (handleToolCallsBranch cfg mem steps msg).1.system_message = mem.system_message := by
  unfold handleToolCallsBranch
  rw [appendToolMessages_system]
  rfl

theorem handleBranch_max (cfg : RunCfg) (mem : ConversationMemory)
    (steps : List AgentStep) (msg : ModelMessage) :
    (handleToolCallsBranch cfg mem steps msg).1.max_entries = mem.max_entries := by
  unfold handleToolCallsBranch
  rw [appendToolMessages_max]
  rfl

theorem toolBatch_length (cfg : RunCfg) (msg : ModelMessage) :
    (toolBatch cfg msg).length = msg.tool_calls.length := by
  simp [toolBatch, recordsOf_length]

theorem fallbackCallId_ne_empty (name : String) (i : Nat) :
    ¬ fallbackCallId name i = "" := by
  intro h
  have hlen := congrArg String.length h
  unfold fallbackCallId at hlen
  simp only [String.length_append] at hlen
  rw [show String.length "call_" = 5 from rfl, show String.length "_" = 1 from rfl,
    show String.length "" = 0 from rfl] at hlen
  omega

theorem resolveCallId_ne_empty (tc : ModelToolCall) (i : Nat) :
    ¬ resolveCallId tc i = "" := by
  unfold resolveCallId
  cases h : tc.id with
  | none => exact fallbackCallId_ne_empty tc.name i
  | some s =>
    show ¬ (if s == "" then fallbackCallId tc.name i else s) = ""
    by_cases hs : s == ""
    · rw [if_pos hs]
      exact fallbackCallId_ne_empty tc.name i
    · rw [if_neg hs]
      intro hcon
      exact hs (by rw [hcon]; rfl)

theorem checkFrom_append (xs : List Message) : ∀ (pre ys : List Message),
    checkFrom pre (xs ++ ys) = (checkFrom pre xs && checkFrom (pre ++ xs) ys) := by
  induction xs with
  | nil => intro pre ys; simp [checkFrom]
  | cons m rest ih =>
    intro pre ys
    simp only [List.cons_append, checkFrom]
    show (justified pre m && checkFrom (pre ++ [m]) (rest ++ ys)) = _
    rw [ih]
    simp [Bool.and_assoc, List.append_assoc]

theorem get_messages_congr (m1 m2 : ConversationMemory) (l : List Message)
    (h1 : m2.system_message = m1.system_message)
    (h2 : m2.messages = m1.messages ++ l) :
    m2.get_messages = m1.get_messages ++ l := by
  unfold ConversationMemory.get_messages
  rw [h1, h2]
  cases m1.system_message <;> simp

theorem batchOf_length (cfg : RunCfg) (op : MemOp) :
    (batchOf cfg op).length = opSize op := by
  cases op with
  | user c => rfl
  | assistantFinal c => rfl
  | toolTurn msg =>
    simp only [batchOf, opSize, List.length_cons, toolBatch_length]
    omega

theorem applyOp_messages (cfg : RunCfg) (mem : ConversationMemory) (op : MemOp)
    (h : mem.messages.length + opSize op ≤ mem.max_entries) :
    (applyOp cfg mem op).messages = mem.messages ++ batchOf cfg op := by
  cases op with
  | user c =>
    unfold applyOp ConversationMemory.add_user_message
    exact _add_message_messages_of_le _ _ _ _ (by simpa [opSize] using h)
  | assistantFinal c =>
    unfold applyOp ConversationMemory.add_assistant_message
    exact _add_message_messages_of_le _ _ _ _ (by simpa [opSize] using h)
  | toolTurn msg =>
    unfold applyOp batchOf
    exact handleBranch_messages cfg mem [] msg (by simp [opSize] at h; omega)

theorem applyOp_system (cfg : RunCfg) (mem : ConversationMemory) (op : MemOp) :
    (applyOp cfg mem op).system_message = mem.system_message := by
  cases op with
  | user c => rfl
  | assistantFinal c => rfl
  | toolTurn msg => exact handleBranch_system cfg mem [] msg

theorem applyOp_max (cfg : RunCfg) (mem : ConversationMemory) (op : MemOp) :
    (applyOp cfg mem op).max_entries = mem.max_entries := by
  cases op with
  | user c => rfl
  | assistantFinal c => rfl
  | toolTurn msg => exact handleBranch_max cfg mem [] msg

theorem resolveCallId_of_some (tc : ModelToolCall) (i : Nat) (s : String)
    (hid : tc.id = some s) (hs : (s == "") = false) : resolveCallId tc i = s := by
  unfold resolveCallId
  rw [hid]
  show (if s == "" then fallbackCallId tc.name i else s) = s
  rw [hs]
  rfl

theorem zip_recordsOf_mem (tools : ToolRegistry) (parse : String → Option ToolArgs)
    (tcs : List ModelToolCall) :
    ∀ (k : Nat) (p : ModelToolCall × String × ToolResult),
    p ∈ tcs.zip (recordsOf tools parse k tcs) →
    p.1 ∈ tcs ∧ ∃ i, p.2.1 = resolveCallId p.1 i := by
  induction tcs with
  | nil => intro k p hp; simp [recordsOf] at hp
  | cons tc rest ih =>
    intro k p hp
    simp only [recordsOf, List.zip_cons_cons, List.mem_cons] at hp
    cases hp with
    | inl h =>
      subst h
      exact ⟨List.mem_cons_self _ _, k, rfl⟩
    | inr h =>
      obtain ⟨hmem, i, hi⟩ := ih (k + 1) p h
      exact ⟨List.mem_cons_of_mem _ hmem, i, hi⟩

theorem assistantRequested_echo (msg : ModelMessage) (tc : ModelToolCall) (s : String)
    (htc : tc ∈ msg.tool_calls) (hid : tc.id = some s) :
    assistantRequested (assistantEcho msg) s = true := by
  have hne : toolCallsData msg.tool_calls ≠ [] := by
    unfold toolCallsData
    intro h
    rw [List.map_eq_nil_iff] at h
    rw [h] at htc
    exact absurd htc (List.not_mem_nil tc)
  have hisEmpty : (toolCallsData msg.tool_calls).isEmpty = false := by
    rw [List.isEmpty_eq_false]
    exact hne
  unfold assistantRequested assistantEcho
  simp only [hisEmpty, if_neg Bool.false_ne_true]
  show (("assistant" == "assistant") &&
    (toolCallsData msg.tool_calls).any fun d => d.id == s) = true
  rw [Bool.and_eq_true]
  refine ⟨rfl, ?_⟩
  rw [List.any_eq_true]
  refine ⟨{ id := tc.id.getD "", name := tc.name, arguments := tc.arguments }, ?_, ?_⟩
  · exact List.mem_map.mpr ⟨tc, htc, rfl⟩
  · show (tc.id.getD "" == s) = true
    rw [hid]
    show (s == s) = true
    exact beq_self_eq_true s

theorem justified_toolMsgOf (pre : List Message) (tc : ModelToolCall) (cid : String)
    (res : ToolResult) (hcid : (cid == "") = false) :
    justified pre (toolMsgOf (tc, cid, res)) = pre.any fun a => assistantRequested a cid := by
  unfold justified toolMsgOf
  simp [hcid]

theorem checkFrom_toolBatchAux (tools : ToolRegistry) (parse : String → Option ToolArgs)
    (msg : ModelMessage) (tcs : List ModelToolCall) :
    ∀ (k : Nat) (pre : List Message),
    assistantEcho msg ∈ pre →
    (∀ tc ∈ tcs, tc ∈ msg.tool_calls) →
    (∀ tc ∈ msg.tool_calls, ∃ s, tc.id = some s ∧ (s == "") = false) →
    checkFrom pre ((tcs.zip (recordsOf tools parse k tcs)).map toolMsgOf) = true := by
  induction tcs with
  | nil => intro k pre _ _ _; rfl
  | cons tc rest ih =>
    intro k pre hA hsub hgood
    have htc : tc ∈ msg.tool_calls := hsub tc (List.mem_cons_self _ _)
    obtain ⟨s, hid, hs⟩ := hgood tc htc
    have hrid : resolveCallId tc k = s := resolveCallId_of_some tc k s hid hs
    simp only [recordsOf, List.zip_cons_cons, List.map_cons, checkFrom]
    have hjust : justified pre
        (toolMsgOf (tc, resolveCallId tc k,
          executeTool tools tc.name ((parse tc.arguments).getD []))) = true := by
      rw [justified_toolMsgOf pre tc (resolveCallId tc k) _ (by rw [hrid]; exact hs)]
      rw [hrid, List.any_eq_true]
      exact ⟨assistantEcho msg, hA, assistantRequested_echo msg tc s htc hid⟩
    rw [hjust, Bool.true_and]
    exact ih (k + 1) _ (List.mem_append_left _ hA)
      (fun x hx => hsub x (List.mem_cons_of_mem _ hx)) hgood

theorem checkFrom_batch (cfg : RunCfg) (op : MemOp) (hok : opOk op = true)
    (pre : List Message) : checkFrom pre (batchOf cfg op) = true := by
  cases op with
  | user c => rfl
  | assistantFinal c => rfl
  | toolTurn msg =>
    show checkFrom pre (assistantEcho msg :: toolBatch cfg msg) = true
    have hjust : justified pre (assistantEcho msg) = true := by
      unfold justified assistantEcho
      rfl
    simp only [checkFrom]
    rw [hjust, Bool.true_and]
    unfold toolBatch
    apply checkFrom_toolBatchAux cfg.tools cfg.parseArgs msg msg.tool_calls 0
    · exact List.mem_append_right _ (List.mem_singleton_self _)
    · intro x hx; exact hx
    · intro tc htc
      unfold opOk at hok
      rw [List.all_eq_true] at hok
      have := hok tc htc
      cases hid : tc.id with
      | none => rw [hid] at this; exact absurd this (by simp)
      | some s =>
        rw [hid] at this
        refine ⟨s, rfl, ?_⟩
        simpa using this

theorem checkFrom_applyOps (cfg : RunCfg) (ops : List MemOp) :
    ∀ mem : ConversationMemory,
    checkFrom [] mem.get_messages = true →
    (∀ op ∈ ops, opOk op = true) →
    mem.messages.length + opsSize ops ≤ mem.max_entries →
    checkFrom [] (applyOps cfg mem ops).get_messages = true := by
  induction ops with
  | nil => intro mem hinv _ _; exact hinv
  | cons op rest ih =>
    intro mem hinv hok hcap
    have hsum : opsSize (op :: rest) = opSize op + opsSize rest := by
      simp [opsSize]
    have hsz : mem.messages.length + opSize op ≤ mem.max_entries := by omega
    have hmsg := applyOp_messages cfg mem op hsz
    have hget := get_messages_congr mem (applyOp cfg mem op) (batchOf cfg op)
      (applyOp_system cfg mem op) hmsg
    show checkFrom [] (applyOps cfg (applyOp cfg mem op) rest).get_messages = true
    apply ih (applyOp cfg mem op)
    · rw [hget, checkFrom_append, hinv,
        checkFrom_batch cfg op (hok op (List.mem_cons_self _ _))]
      rfl
    · intro o ho
      exact hok o (List.mem_cons_of_mem _ ho)
    · rw [applyOp_max, hmsg]
      simp only [List.length_append, batchOf_length]
      omega

theorem appendToLastStep_cons_of_ne (x : AgentStep) (L : List AgentStep)
    (tc : ToolCall) (tr : ToolResult) (h : L ≠ []) :
    appendToLastStep (x :: L) tc tr = x :: appendToLastStep L tc tr := by
  cases L with
  | nil => exact absurd rfl h
  | cons y ys => rfl

theorem appendToLastStep_concat (xs : List AgentStep) (s : AgentStep)
    (tc : ToolCall) (tr : ToolResult) :
    appendToLastStep (xs ++ [s]) tc tr =
      xs ++ [{ s with tool_calls := s.tool_calls ++ [tc],
                      tool_results := s.tool_results ++ [tr] }] := by
  induction xs with
  | nil => rfl
  | cons x xs ih =>
    rw [List.cons_append, appendToLastStep_cons_of_ne x (xs ++ [s]) tc tr (by simp),
      ih, List.cons_append]

theorem processAux_steps_concat (tools : ToolRegistry) (parse : String → Option ToolArgs)
    (tcs : List ModelToolCall) : ∀ (i : Nat) (xs : List AgentStep) (s : AgentStep),
    ∃ s2, (processToolCallsAux tools parse i tcs (xs ++ [s])).2 = xs ++ [s2] := by
  induction tcs with
  | nil => intro i xs s; exact ⟨s, rfl⟩
  | cons tc rest ih =>
    intro i xs s
    simp only [processToolCallsAux]
    rw [appendToLastStep_concat]
    exact ih (i + 1) xs _

theorem runLoopFuel_steps_prefix (cfg : RunCfg) : ∀ (fuel : Nat) (st : LoopState),
    st.steps <+: (runLoopFuel cfg fuel st).2.steps := by
  intro fuel
  induction fuel with
  | zero => intro st; exact List.prefix_refl _
  | succ fuel ih =>
    intro st
    simp only [runLoopFuel]
    cases hllm : cfg.llm (st.current_step + 1) st.memory.get_openai_messages with
    | error e => exact List.prefix_refl _
    | ok msg => exact List.prefix_refl _

theorem list_get_map {α β : Type} (f : α → β) (l : List α) (i : Nat)
    (h1 : i < (l.map f).length) (h2 : i < l.length) :
    (l.map f).get ⟨i, h1⟩ = f (l.get ⟨i, h2⟩) := by
  simp

theorem list_get_zip {α β : Type} (l1 : List α) (l2 : List β) (i : Nat)
    (h : i < (l1.zip l2).length) (h1 : i < l1.length) (h2 : i < l2.length) :
    (l1.zip l2).get ⟨i, h⟩ = (l1.get ⟨i, h1⟩, l2.get ⟨i, h2⟩) := by
  simp

-- ===========================================================================
-- Claims
-- ===========================================================================

/-- C1.  The claim states that a first model response with free text and no
tool-call directives yields `success = true`, `total_iterations = 1` and
`final_answer` equal to the free text.  On the code this fails: the step
record construction `AgentStep(step_number=..., thinking=...)` raises
`TypeError` (the dataclass field is `thought`), the exception is caught by
the handler of `run`, and the run returns `success = false` with the
`TypeError` text — in the very first iteration, before the free text can
become the final answer.  This theorem evaluates the embedded code at the
failing input (`what is 2+2` with the backend answering `4` directly). -/
theorem claim_C1 :
    (BaseAgent.run cfgDirectAnswer memDefault "what is 2+2").1.success = false ∧
    (BaseAgent.run cfgDirectAnswer memDefault "what is 2+2").1.total_iterations = 1 ∧
    (BaseAgent.run cfgDirectAnswer memDefault "what is 2+2").1.error_message =
      some agentStepTypeError ∧
    ¬ (BaseAgent.run cfgDirectAnswer memDefault "what is 2+2").1.final_answer = "4" := by
  refine ⟨rfl, rfl, rfl, ?_⟩
  decide

/-- C2.  `run` never lets an exception escape: whatever the backend and the
bookkeeping raise inside the loop, `run` returns an `AgentResponse` with
`success = false`, `error_message` equal to the exception text, and the
steps accumulated up to the exception; moreover the loop never discards
previously accumulated steps (the step list only grows). -/
theorem claim_C2 (cfg : RunCfg) (mem : ConversationMemory) (input : String) :
    (∀ e st,
        runLoopFuel cfg cfg.max_iterations (initLoopState mem input) =
          (Except.error e, st) →
        (BaseAgent.run cfg mem input).1 =
          { success := false,
            final_answer := "执行过程中发生错误 / Error during execution: " ++ e,
            steps := st.steps, total_iterations := st.current_step,
            total_tokens_used := 0, execution_time := 0,
            error_message := some e }) ∧
    (∀ fuel st, st.steps <+: (runLoopFuel cfg fuel st).2.steps) := by
  refine ⟨fun e st h => ?_, fun fuel st => runLoopFuel_steps_prefix cfg fuel st⟩
  unfold BaseAgent.run
  rw [h]
  rfl

/-- C2 witness: a backend whose request raises `boom` on the first
iteration; the run returns the corresponding failure response. -/
theorem claim_C2_witness :
    (BaseAgent.run cfgRaisingBackend memDefault "hi").1 =
      { success := false,
        final_answer := "执行过程中发生错误 / Error during execution: boom",
        steps := [], total_iterations := 1, total_tokens_used := 0,
        execution_time := 0, error_message := some "boom" } :=
  (claim_C2 cfgRaisingBackend memDefault "hi").1 "boom"
    { current_step := 1, steps := [],
      memory := memDefault.add_user_message "hi", state := .thinking }
    rfl

/-- C3 counterexample.  The claim as stated quantifies over every model
response with N directives and asserts that, after the loop processes it,
the memory contains the appended assistant echo followed by the N tool
messages.  With a cap-1 memory (`ConversationMemory(max_entries=1)` is an
admissible configuration) processing a single directive evicts the
assistant echo: the log afterwards consists of the tool message alone, so
no appended assistant message exists. -/
theorem claim_C3_counterexample :
    (handleToolCallsBranch cfgRaisingBackend memCapOne [] msgOneCall).1.messages.map
        Message.role = ["tool"] ∧
    ¬ ∃ am tms,
        (handleToolCallsBranch cfgRaisingBackend memCapOne [] msgOneCall).1.messages =
          memCapOne.messages ++ am :: tms ∧ am.role = "assistant" := by
  refine ⟨rfl, ?_⟩
  rintro ⟨am, tms, heq, hrole⟩
  have hnil : memCapOne.messages = [] := rfl
  rw [hnil, List.nil_append] at heq
  have h1 : (handleToolCallsBranch cfgRaisingBackend memCapOne [] msgOneCall).1.messages.map
      Message.role = ["tool"] := rfl
  rw [heq, List.map_cons] at h1
  have h2 : am.role = "tool" := (List.cons.injEq _ _ _ _ ▸ h1).1
  rw [hrole] at h2
  exact absurd h2 (by decide)

/-- C3 (amended: provided no eviction is triggered while the response is
processed, i.e. the log plus the assistant echo and the N tool messages
still fits under the configured cap).  Processing a response with N
directives appends exactly one assistant message — whose metadata records
the N directives in the model's order, with their ids (an absent id recorded
as the empty string) — followed by N tool messages in that same order, the
i-th carrying a `tool_call_id` equal to the i-th directive's id, or the
synthesized fallback when the id is absent or empty. -/
theorem claim_C3 (cfg : RunCfg) (mem : ConversationMemory) (steps : List AgentStep)
    (msg : ModelMessage) (hne : msg.tool_calls ≠ [])
    (hcap : mem.messages.length + 1 + msg.tool_calls.length ≤ mem.max_entries) :
    ∃ am tms,
      (handleToolCallsBranch cfg mem steps msg).1.messages =
        mem.messages ++ am :: tms ∧
      am.role = "assistant" ∧
      am.metadata.tool_calls =
        some (msg.tool_calls.map fun tc =>
          ({ id := tc.id.getD "", name := tc.name,
             arguments := tc.arguments } : ToolCallData)) ∧
      tms.length = msg.tool_calls.length ∧
      ∀ (i : Nat) (hi : i < msg.tool_calls.length) (htm : i < tms.length),
        (tms.get ⟨i, htm⟩).role = "tool" ∧
        (tms.get ⟨i, htm⟩).metadata.tool_call_id =
          some (resolveCallId (msg.tool_calls.get ⟨i, hi⟩) i) := by
  have hisEmpty : (toolCallsData msg.tool_calls).isEmpty = false := by
    rw [List.isEmpty_eq_false]
    unfold toolCallsData
    rw [Ne, List.map_eq_nil_iff]
    exact hne
  refine ⟨assistantEcho msg, toolBatch cfg msg,
    handleBranch_messages cfg mem steps msg hcap, rfl, ?_, toolBatch_length cfg msg, ?_⟩
  · unfold assistantEcho
    rw [hisEmpty]
    rfl
  · intro i hi htm
    have hz : i < (msg.tool_calls.zip
        (recordsOf cfg.tools cfg.parseArgs 0 msg.tool_calls)).length := by
      rw [List.length_zip, recordsOf_length]
      omega
    have hrl : i < (recordsOf cfg.tools cfg.parseArgs 0 msg.tool_calls).length := by
      rw [recordsOf_length]
      exact hi
    have hget : (toolBatch cfg msg).get ⟨i, htm⟩ =
        toolMsgOf ((msg.tool_calls.zip
          (recordsOf cfg.tools cfg.parseArgs 0 msg.tool_calls)).get ⟨i, hz⟩) := by
      unfold toolBatch
      exact list_get_map toolMsgOf _ i htm hz
    rw [hget, list_get_zip _ _ i hz hi hrl,
      recordsOf_get cfg.tools cfg.parseArgs msg.tool_calls 0 i hi hrl]
    have hzero : (0 : Nat) + i = i := by omega
    rw [hzero]
    refine ⟨rfl, ?_⟩
    have hne2 : (resolveCallId (msg.tool_calls.get ⟨i, hi⟩) i == "") = false := by
      rw [beq_eq_false_iff_ne]
      exact resolveCallId_ne_empty _ i
    unfold toolMsgOf
    rw [hne2]
    rfl

/-- C3 witness: a two-directive response (ids `a` and `b`) against the
default cap-100 memory. -/
theorem claim_C3_witness :
    ∃ am tms,
      (handleToolCallsBranch cfgRaisingBackend memDefault [] msgTwoCalls).1.messages =
        memDefault.messages ++ am :: tms ∧
      am.role = "assistant" ∧
      am.metadata.tool_calls =
        some (msgTwoCalls.tool_calls.map fun tc =>
          ({ id := tc.id.getD "", name := tc.name,
             arguments := tc.arguments } : ToolCallData)) ∧
      tms.length = msgTwoCalls.tool_calls.length ∧
      ∀ (i : Nat) (hi : i < msgTwoCalls.tool_calls.length) (htm : i < tms.length),
        (tms.get ⟨i, htm⟩).role = "tool" ∧
        (tms.get ⟨i, htm⟩).metadata.tool_call_id =
          some (resolveCallId (msgTwoCalls.tool_calls.get ⟨i, hi⟩) i) :=
  claim_C3 cfgRaisingBackend memDefault [] msgTwoCalls (by decide) (by decide)

/-- C5.  The claim requires the synthesized fallback id to incorporate the
iteration number so that distinct iterations get distinct ids.  The code
synthesizes `call_{tool_name}_{i}` from the tool name and ordinal position
only: evaluated at the failing input (a `calculator` directive with no id at
ordinal 0, processed in iteration 1 and again in iteration 2 of the same
run), both iterations produce the identical id `call_calculator_0`. -/
theorem claim_C5 :
    resolveCallId tcNoId 0 = "call_calculator_0" ∧
    (processToolCallsAux [] (fun _ => none) 0 [tcNoId] stepsIter1).1.map Prod.fst =
      ["call_calculator_0"] ∧
    (processToolCallsAux [] (fun _ => none) 0 [tcNoId] stepsIter2).1.map Prod.fst =
      ["call_calculator_0"] := by
  refine ⟨rfl, rfl, rfl⟩

/-- C4 counterexample.  The claim quantifies over every operation sequence,
explicitly including appends that trigger bounded eviction.  With a cap-1
memory, a single tool turn (directive id `c1`) evicts the assistant echo
that requested `c1`, leaving the exported ordering with a tool message whose
`call_id` no preceding assistant message requested. -/
theorem claim_C4_counterexample :
    checkFrom []
      (applyOps cfgRaisingBackend memCapOne [MemOp.toolTurn msgOneCall]).get_messages =
      false := by
  rfl

/-- C4 (amended: provided no eviction occurs during the sequence — the total
number of appended messages stays within the configured cap — and every
directive carries a non-empty id).  For every sequence of loop-generated
Conversation Memory operations starting from a fresh log, the exported
ordering never contains a tool message without a preceding assistant message
that requested that specific `call_id`. -/
theorem claim_C4 (cfg : RunCfg) (cap : Nat) (sysc : Option String) (ops : List MemOp)
    (hok : ∀ op ∈ ops, opOk op = true)
    (hcap : opsSize ops ≤ cap) :
    checkFrom []
      (applyOps cfg
        { max_entries := cap, messages := [],
          system_message := sysc.map fun c => ({ role := "system", content := c } : Message),
          files := [] } ops).get_messages = true := by
  apply checkFrom_applyOps cfg ops _ ?_ hok ?_
  · cases sysc with
    | none => rfl
    | some c => rfl
  · simpa using hcap

/-- C4 witness: a user message followed by a two-directive tool turn under a
cap of 10 with a system message set. -/
theorem claim_C4_witness :
    checkFrom []
      (applyOps cfgRaisingBackend
        { max_entries := 10, messages := [],
          system_message :=
            (some "sys").map fun c => ({ role := "system", content := c } : Message),
          files := [] }
        [MemOp.user "hi", MemOp.toolTurn msgTwoCalls]).get_messages = true :=
  claim_C4 cfgRaisingBackend 10 (some "sys")
    [MemOp.user "hi", MemOp.toolTurn msgTwoCalls] (by decide) (by decide)

/-- C6.  Dispatching an unregistered tool name returns a `ToolResult` with
status `error` (the embedded `_execute_tool` is a total function — nothing
is raised), and the loop body with tool-call directives always continues to
the next iteration (`BodyOut.next`) rather than returning a response. -/
theorem claim_C6 (cfg : RunCfg) (mem : ConversationMemory) (steps : List AgentStep)
    (stepNum : Nat) (msg : ModelMessage) (step : AgentStep)
    (name : String) (args : ToolArgs)
    (hname : cfg.tools.lookup name = none) (hne : msg.tool_calls ≠ []) :
    executeTool cfg.tools name args =
      { tool_name := name, status := .error, output := none,
        error_message := some ("未知工具 / Unknown tool: " ++ name),
        execution_time := 0 } ∧
    ∃ mem2 steps2,
      loopBodyAfterStep cfg mem steps stepNum msg step = BodyOut.next mem2 steps2 := by
  constructor
  · unfold executeTool
    rw [hname]
  · unfold loopBodyAfterStep
    have hempty : msg.tool_calls.isEmpty = false := by
      rw [List.isEmpty_eq_false]
      exact hne
    rw [hempty]
    exact ⟨_, _, rfl⟩

/-- C6 witness: the unregistered tool name `foo` against the empty registry,
inside a response with one directive. -/
theorem claim_C6_witness :
    executeTool cfgRaisingBackend.tools "foo" [] =
      { tool_name := "foo", status := .error, output := none,
        error_message := some ("未知工具 / Unknown tool: " ++ "foo"),
        execution_time := 0 } ∧
    ∃ mem2 steps2,
      loopBodyAfterStep cfgRaisingBackend memDefault [] 1 msgOneCall
        { step_number := 1, thought := "" } = BodyOut.next mem2 steps2 :=
  claim_C6 cfgRaisingBackend memDefault [] 1 msgOneCall
    { step_number := 1, thought := "" } "foo" [] rfl (by decide)

/-- C7.  `BaseTool.run` is total (never raises) and tags every outcome: a
`TimeoutError` in the body gives status `timeout`, any other exception gives
status `error` with the exception text embedded in the message, a normal
return gives status `success` with the returned value as output; in all
cases the elapsed wall-clock duration is recorded in `execution_time`. -/
theorem claim_C7 (name : String) (body : ToolArgs → ToolOutcome) (args : ToolArgs)
    (t : Nat) :
    (BaseTool.run name body args t).execution_time = t ∧
    (BaseTool.run name body args t).tool_name = name ∧
    (∀ v, body args = ToolOutcome.ok v →
        BaseTool.run name body args t =
          { tool_name := name, status := .success, output := some v,
            error_message := none, execution_time := t }) ∧
    (∀ e, body args = ToolOutcome.timeout e →
        BaseTool.run name body args t =
          { tool_name := name, status := .timeout, output := none,
            error_message := some ("工具执行超时 / Tool execution timeout: " ++ e),
            execution_time := t }) ∧
    (∀ e, body args = ToolOutcome.exn e →
        BaseTool.run name body args t =
          { tool_name := name, status := .error, output := none,
            error_message := some ("工具执行错误 / Tool execution error: " ++ e),
            execution_time := t }) := by
  refine ⟨?_, ?_, ?_, ?_, ?_⟩
  · unfold BaseTool.run wrapOutcome
    cases body args <;> rfl
  · unfold BaseTool.run wrapOutcome
    cases body args <;> rfl
  · intro v h
    unfold BaseTool.run
    rw [h]
    rfl
  · intro e h
    unfold BaseTool.run
    rw [h]
    rfl
  · intro e h
    unfold BaseTool.run
    rw [h]
    rfl

/-- C7 witness: a body raising a plain exception with text `nope`. -/
theorem claim_C7_witness :
    BaseTool.run "calc" bodyRaising [] 7 =
      { tool_name := "calc", status := .error, output := none,
        error_message := some ("工具执行错误 / Tool execution error: " ++ "nope"),
        execution_time := 7 } :=
  (claim_C7 "calc" bodyRaising [] 7).2.2.2.2 "nope" rfl

/-- C8.  Path allow-list enforcement: for every path that lies outside every
configured allowed root after normalization — traversal segments included —
both the read tool and the write tool refuse with a permission error
surfacing as an error-status `ToolResult`, and the write tool leaves the
file system untouched. -/
theorem claim_C8 (cwd : List String) (allowed : List PyPath) (fs : FileSystem)
    (p : PyPath) (content : String) (append : Bool) (t1 t2 : Nat)
    (hout : ∀ d ∈ allowed, (absNorm cwd d).isPrefixOf (absNorm cwd p) = false) :
    (ReadFileTool.run cwd allowed fs p t1).status = ToolResultStatus.error ∧
    (ReadFileTool.run cwd allowed fs p t1).error_message =
      some ("工具执行错误 / Tool execution error: " ++
        ("不允许访问该路径 / Access to this path is not allowed: " ++ renderPath p)) ∧
    (WriteFileTool.run cwd allowed fs p content append t2).1.status =
      ToolResultStatus.error ∧
    (WriteFileTool.run cwd allowed fs p content append t2).2 = fs := by
  have hall : _is_path_allowed cwd allowed p = false := by
    unfold _is_path_allowed
    apply List.any_eq_false.mpr
    intro d hd
    intro hco
    unfold dirAllows at hco
    by_cases hda : (absNorm cwd d).isEmpty
    · have hdnil : absNorm cwd d = [] := List.isEmpty_iff.mp hda
      have : ([] : List String).isPrefixOf (absNorm cwd p) = false := by
        rw [← hdnil]
        exact hout d hd
      exact absurd this (by simp [List.isPrefixOf])
    · rw [if_neg hda] at hco
      rw [hout d hd] at hco
      exact absurd hco (by decide)
  refine ⟨?_, ?_, ?_, ?_⟩
  · unfold ReadFileTool.run ReadFileTool._run
    rw [hall]
    rfl
  · unfold ReadFileTool.run ReadFileTool._run
    rw [hall]
    rfl
  · unfold WriteFileTool.run WriteFileTool._run
    rw [hall]
    rfl
  · unfold WriteFileTool.run WriteFileTool._run
    rw [hall]
    rfl

/-- C8 witness: allowed root `/home/user/ws`, working directory
`/home/user`, and the traversal path `../../etc/passwd`, which normalizes to
`/etc/passwd`, outside the root. -/
theorem claim_C8_witness :
    (ReadFileTool.run cwdW allowedW [] pTraversal 0).status = ToolResultStatus.error ∧
    (ReadFileTool.run cwdW allowedW [] pTraversal 0).error_message =
      some ("工具执行错误 / Tool execution error: " ++
        ("不允许访问该路径 / Access to this path is not allowed: " ++ renderPath pTraversal)) ∧
    (WriteFileTool.run cwdW allowedW [] pTraversal "x" false 0).1.status =
      ToolResultStatus.error ∧
    (WriteFileTool.run cwdW allowedW [] pTraversal "x" false 0).2 = [] :=
  claim_C8 cwdW allowedW [] pTraversal "x" false 0 0 (by decide)

/-- C9.  Bounded retention: `_add_message` never touches the separately
stored system message, the retained log is exactly the appended log with its
oldest entries dropped down to the cap (first-in-first-out eviction of
non-system messages), and in every exported ordering the system message, if
set, is positionally first. -/
theorem claim_C9 (m : ConversationMemory) (role content : String) (md : Metadata) :
    (m._add_message role content md).system_message = m.system_message ∧
    (m._add_message role content md).messages =
      (m.messages ++ [({ role := role, content := content, metadata := md } : Message)]).drop
        ((m.messages.length + 1) - m.max_entries) ∧
    (∀ s, m.system_message = some s → m.get_messages.head? = some s) := by
  refine ⟨rfl, ?_, ?_⟩
  · unfold ConversationMemory._add_message
    rw [evictLoop_eq_drop]
    simp
  · intro s hs
    unfold ConversationMemory.get_messages
    rw [hs]
    rfl

/-- C9 witness at the cap-1 memory holding a system message: appending a
second user message evicts the first (FIFO), never the system message, and
the exported ordering still starts with the system message. -/
theorem claim_C9_witness :
    ((((memCapOne.set_system_message "sys").add_user_message "m1")._add_message
        "user" "m2" {}).system_message =
      (memCapOne.set_system_message "sys").system_message) ∧
    ((((memCapOne.set_system_message "sys").add_user_message "m1")._add_message
        "user" "m2" {}).messages = [({ role := "user", content := "m2" } : Message)]) ∧
    (((memCapOne.set_system_message "sys").add_user_message "m1").get_messages.head? =
      some ({ role := "system", content := "sys" } : Message)) := by
  have h := claim_C9 ((memCapOne.set_system_message "sys").add_user_message "m1")
    "user" "m2" {}
  refine ⟨h.1, ?_, h.2.2 { role := "system", content := "sys" } rfl⟩
  rw [h.2.1]
  rfl

/-- C10.  Frame property: `BaseAgent.reset` (which clears the message log
through `ConversationMemory.clear` with `keep_system = true`) and `clear`
itself leave the file-context table — every entry with its content,
abstract, timestamp and metadata — unchanged. -/
theorem claim_C10 (st : LoopState) (m : ConversationMemory) (keep : Bool) :
    (BaseAgent.reset st).memory.files = st.memory.files ∧
    (m.clear keep).files = m.files :=
  ⟨rfl, rfl⟩

end SamaAgent
